import Mathlib

/-!
Verification of the n-back memory trainer's core logic: the reward cascade
(`src/services/rewardService.ts`), the achievement evaluator
(`src/services/achievementService.ts`, `src/achievements.ts`), the turn state
machine (`src/hooks/useGameLogic.ts` and its balanced-generator variant in
`src/unnamed/part_003`), and the stimulus-sequence generator.

Modelling conventions:
* TypeScript numbers that the code only ever uses as non-negative integers
  (reward counters, streaks, turn indices, settings) are `Nat`; the score,
  which the code clamps with `Math.max(0, ...)`, is `Int`.
* `Math.random()` is replaced by an injected oracle: a `List Nat` of draws.
  A JS pick `arr[Math.floor(Math.random() * arr.length)]` becomes
  `arr.getD (r % arr.length) default` for the next oracle value `r`;
  every index the JS code can pick corresponds to some oracle value and
  vice versa, so `∀`-statements over the oracle cover all behaviours.
* JS optional-chained id comparison `seq[i]?.id === seq[j]?.id` (where an
  out-of-range access yields `undefined`, and `undefined === undefined`)
  becomes equality of `Option String` via `List.get?`.
-/

namespace NBack

/-- `Stimulus` from `types.ts`: unique id, enumerated type (kept as its
string value), display value, optional display name. -/
structure Stimulus where
  id : String
  type : String
  value : String
  name : Option String := none
deriving Repr, DecidableEq, Inhabited

/-- `GameSettings` from `types.ts`. -/
structure GameSettings where
  level : Nat
  nLevel : Nat
  stimulusType : String
  gameLength : Nat
  speed : Nat
deriving Repr, DecidableEq

/-- `GameStats` from `types.ts`; the score is an `Int` (it can be compared
with 0 by `calculateStars`). -/
structure GameStats where
  score : Int
  settings : GameSettings
  maxStreak : Nat
  incorrectPresses : Nat
  gameCompleted : Bool
deriving Repr, DecidableEq

/-- `PlayerRewards` from `types.ts`: the four tiered reward counters. -/
structure PlayerRewards where
  stars : Nat
  gems : Nat
  trophies : Nat
  perfectScores : Nat
deriving Repr, DecidableEq

/-- `calculateStars` from `src/services/rewardService.ts`: zero for a
non-positive score, otherwise `floor(score / (5 * basePoints))` with
`basePoints = 10 * 2^(nLevel - 1)` (the defensive `starConversionRate <= 0`
check of the source is kept). -/
def calculateStars (stats : GameStats) : Int :=
  if stats.score ≤ 0 then 0
  else
    let basePoints : Int := 10 * 2 ^ (stats.settings.nLevel - 1)
    let starConversionRate := 5 * basePoints
    if starConversionRate ≤ 0 then 0
    else stats.score / starConversionRate

/-- `processRewards` from `src/services/rewardService.ts`, returning
`(earned, newTotal)`.  The sequential mutation of the running totals is
rendered as shadowing `let`s in the same order as the source: perfect-score
gem bonus, direct star earnings, then the three guarded cascade steps. -/
def processRewards (currentRewards : PlayerRewards) (starsToAdd : Nat)
    (wasPerfectScore : Bool) : PlayerRewards × PlayerRewards :=
  let totalStars := currentRewards.stars
  let totalGems := currentRewards.gems
  let totalTrophies := currentRewards.trophies
  let totalPerfectScores := currentRewards.perfectScores
  -- Step 1: perfect-score gem bonus
  let totalGems := if wasPerfectScore then totalGems + 1 else totalGems
  let earnedGemsThisSession := if wasPerfectScore then 1 else 0
  -- Step 2: direct star earnings
  let totalStars := totalStars + starsToAdd
  -- Step 3: cascading conversions
  let gemsFromStars := if totalStars ≥ 10 then totalStars / 10 else 0
  let totalGems := totalGems + gemsFromStars
  let earnedGemsThisSession := earnedGemsThisSession + gemsFromStars
  let totalStars := if totalStars ≥ 10 then totalStars % 10 else totalStars
  let trophiesFromGems := if totalGems ≥ 10 then totalGems / 10 else 0
  let totalTrophies := totalTrophies + trophiesFromGems
  let earnedTrophiesThisSession := trophiesFromGems
  let totalGems := if totalGems ≥ 10 then totalGems % 10 else totalGems
  let perfectFromTrophies := if totalTrophies ≥ 10 then totalTrophies / 10 else 0
  let totalPerfectScores := totalPerfectScores + perfectFromTrophies
  let earnedPerfectScoresThisSession := perfectFromTrophies
  let totalTrophies := if totalTrophies ≥ 10 then totalTrophies % 10 else totalTrophies
  (⟨starsToAdd, earnedGemsThisSession, earnedTrophiesThisSession,
      earnedPerfectScoresThisSession⟩,
   ⟨totalStars, totalGems, totalTrophies, totalPerfectScores⟩)

/-- One cascade applied to the combined inputs of several sessions,
following the spec's words for §4.4: add the combined perfect-score gem
bonuses (`gemBonus` gems), add the summed star gains, then run the fixed
conversion chain where each step fires only when its tier reaches 10.
`processRewards r s p` produces exactly this new total with
`gemBonus = if p then 1 else 0` (proved below). -/
def cascadeCombined (r : PlayerRewards) (starsToAdd gemBonus : Nat) :
    PlayerRewards :=
  let s0 := r.stars + starsToAdd
  let g0 := r.gems + gemBonus + (if s0 ≥ 10 then s0 / 10 else 0)
  let s1 := if s0 ≥ 10 then s0 % 10 else s0
  let t0 := r.trophies + (if g0 ≥ 10 then g0 / 10 else 0)
  let g1 := if g0 ≥ 10 then g0 % 10 else g0
  let p0 := r.perfectScores + (if t0 ≥ 10 then t0 / 10 else 0)
  let t1 := if t0 ≥ 10 then t0 % 10 else t0
  ⟨s1, g1, t1, p0⟩

/-! ### Turn state machine (`src/hooks/useGameLogic.ts`, `src/unnamed/part_003`) -/

/-- The per-turn result classification of `useGameLogic`. -/
inductive TurnResult where
  | correct
  | incorrect
  | neutral
deriving Repr, DecidableEq

/-- The mutable state of the `useGameLogic` hook.  Pure display state
(the review-overlay flag and the turn-indexed score log used for the
post-game chart) is omitted; everything scoring-relevant is here. -/
structure GameState where
  turn : Nat
  score : Int
  history : List (Option Stimulus)
  isGameOver : Bool
  userResponded : Bool
  lastResult : TurnResult
  currentStreak : Nat
  maxStreak : Nat
  incorrectPresses : Nat
deriving Repr, DecidableEq

/-- `basePoints = 10 * Math.pow(2, settings.nLevel - 1)`. -/
def basePoints (nLevel : Nat) : Nat := 10 * 2 ^ (nLevel - 1)

/-- `penalty = Math.ceil(basePoints / 2)`, i.e. division by 2 rounded up. -/
def penalty (nLevel : Nat) : Nat := (basePoints nLevel + 1) / 2

/-- The ground-truth id comparison
`gameSequence[turn]?.id === gameSequence[turn - nLevel]?.id`: out-of-range
accesses give `none` on both sides (JS `undefined === undefined` is true). -/
def matchIdsAt (nLevel : Nat) (seq : List Stimulus) (turn : Nat) : Bool :=
  (seq.get? turn).map Stimulus.id == (seq.get? (turn - nLevel)).map Stimulus.id

/-- The timer-path ground truth, which additionally requires `turn ≥ nLevel`:
`turn >= settings.nLevel && gameSequence[turn]?.id === gameSequence[turn - settings.nLevel]?.id`. -/
def actualMatchAt (nLevel : Nat) (seq : List Stimulus) (turn : Nat) : Bool :=
  decide (nLevel ≤ turn) && matchIdsAt nLevel seq turn

/-- `advanceTurn` from `useGameLogic` (identical in both variants): a no-op
on a finished game, otherwise append the current stimulus to the review
history and either step to the next turn (resetting the responded flag) or
set the game-over flag on the last turn. -/
def advanceTurn (settings : GameSettings) (seq : List Stimulus)
    (st : GameState) : GameState :=
  if st.isGameOver then st
  else
    let st := { st with history := st.history ++ [seq.get? st.turn] }
    if st.turn < settings.gameLength - 1 then
      { st with turn := st.turn + 1, userResponded := false }
    else
      { st with isGameOver := true }

/-- `handleMatch` from `src/hooks/useGameLogic.ts` (lines 101-129): ignored
when already responded, before position `n`, or paused; otherwise mark
responded, compare the user's signal with the ground truth and apply the
correct / incorrect scoring branch.  The turn advance that the source
schedules on a timeout is not part of this step (see `advanceTurn`). -/
def handleMatch (settings : GameSettings) (seq : List Stimulus)
    (isPaused : Bool) (st : GameState) (userPressedMatch : Bool) : GameState :=
  if st.userResponded || decide (st.turn < settings.nLevel) || isPaused then st
  else
    let st := { st with userResponded := true }
    let actualMatch := matchIdsAt settings.nLevel seq st.turn
    if userPressedMatch == actualMatch then
      let newStreak := st.currentStreak + 1
      let comboBonus := (newStreak - 1) * (5 * settings.nLevel)
      { st with
          score := st.score + (basePoints settings.nLevel : Int) + comboBonus,
          currentStreak := newStreak,
          lastResult := .correct }
    else
      { st with
          score := max 0 (st.score - penalty settings.nLevel),
          currentStreak := 0,
          incorrectPresses := st.incorrectPresses + 1,
          lastResult := .incorrect }

/-- The timer-elapsed path of `src/hooks/useGameLogic.ts` (lines 66-99),
with the delayed `advanceTurn` of both branches folded into the step.
A missed true match is penalised like an incorrect press; a correct no-op
is neutral but resets the streak (`setCurrentStreak(0)`, line 91). -/
def timerElapsed (settings : GameSettings) (seq : List Stimulus)
    (stimuliCount : Nat) (isPaused : Bool) (st : GameState) : GameState :=
  if isPaused || st.isGameOver || stimuliCount == 0 then st
  else if st.userResponded then st
  else if actualMatchAt settings.nLevel seq st.turn then
    advanceTurn settings seq
      { st with
          score := max 0 (st.score - penalty settings.nLevel),
          currentStreak := 0,
          incorrectPresses := st.incorrectPresses + 1,
          lastResult := .incorrect }
  else
    advanceTurn settings seq
      { st with lastResult := .neutral, currentStreak := 0 }

/-- The timer-elapsed path of the `src/unnamed/part_003` variant
(lines 178-212): same guards plus an empty-sequence check, same penalty
branch, but the correct no-op leaves the streak untouched ("This no longer
breaks the combo streak"). -/
def timerElapsedBalanced (settings : GameSettings) (seq : List Stimulus)
    (stimuliCount : Nat) (isPaused : Bool) (st : GameState) : GameState :=
  if isPaused || st.isGameOver || stimuliCount == 0 || seq.length == 0 then st
  else if st.userResponded then st
  else if actualMatchAt settings.nLevel seq st.turn then
    advanceTurn settings seq
      { st with
          score := max 0 (st.score - penalty settings.nLevel),
          currentStreak := 0,
          incorrectPresses := st.incorrectPresses + 1,
          lastResult := .incorrect }
  else
    advanceTurn settings seq { st with lastResult := .neutral }

/-! ### Achievement evaluator (`src/achievements.ts`, `src/services/achievementService.ts`) -/

/-- `AchievementType` from `types.ts`. -/
inductive AchievementType where
  | score
  | streak
  | levelComplete
  | precision
  | action
  | generic
deriving Repr, DecidableEq

/-- The union-typed achievement goal `number | ((stats) => boolean)`,
as a tagged variant; `evalAchievement` checks the tag exactly where the
source checks `typeof achievement.goal`. -/
inductive AchGoal where
  | num (n : Nat)
  | pred (p : GameStats → Bool)

/-- `Achievement` from `types.ts`. -/
structure Achievement where
  id : String
  name : String
  description : String
  emoji : String
  type : AchievementType
  goal : AchGoal

/-- `ALL_ACHIEVEMENTS` from `src/achievements.ts`, in definition order. -/
def ALL_ACHIEVEMENTS : List Achievement :=
  [⟨"first_game", "第一步", "完成你的第一场游戏。", "👣", .generic,
      .pred fun stats => stats.gameCompleted⟩,
   ⟨"score_500", "得分高手", "在单场游戏中获得500分。", "🏆", .score, .num 500⟩,
   ⟨"streak_5", "连胜达人", "连续正确匹配5次。", "🔥", .streak, .num 5⟩,
   ⟨"streak_10", "势不可挡", "连续正确匹配10次。", "🚀", .streak, .num 10⟩,
   ⟨"n2_master", "N=2 大师", "在 N=2 难度下以400分或以上的成绩完成游戏。", "🧠",
      .levelComplete,
      .pred fun stats => decide (stats.settings.nLevel = 2)
        && decide ((400 : Int) ≤ stats.score) && stats.gameCompleted⟩,
   ⟨"n3_pro", "N=3 专家", "在 N=3 难度下以800分或以上的成绩完成游戏。", "🌟",
      .levelComplete,
      .pred fun stats => decide (stats.settings.nLevel = 3)
        && decide ((800 : Int) ≤ stats.score) && stats.gameCompleted⟩,
   ⟨"perfect_precision", "零失误", "在不犯任何错误的情况下完成一场游戏。", "✨",
      .precision, .num 0⟩,
   ⟨"ai_explorer", "AI探索者", "首次使用AI功能生成新资源。", "🤖", .action, .num 1⟩]

/-- `UnlockedAchievements = Record<string, string>` (achievement id to ISO
timestamp), as an association list.  The source tests
`if (unlockedAchievements[achievement.id])` — JS truthiness of the value —
which is key presence with a non-empty string value. -/
def isTruthyAt (unlocked : List (String × String)) (id : String) : Bool :=
  match unlocked.lookup id with
  | some ts => ts != ""
  | none => false

/-- The per-achievement `switch` of `checkAchievements`
(`src/services/achievementService.ts` lines 16-46): each category checks
that the goal has the expected shape (`typeof` in the source, the variant
tag here) and evaluates it; `action` achievements and shape mismatches are
never unlocked here. -/
def evalAchievement (stats : GameStats) (a : Achievement) : Bool :=
  match a.type, a.goal with
  | .generic, .pred p => p stats
  | .score, .num g => decide ((g : Int) ≤ stats.score)
  | .streak, .num g => decide (g ≤ stats.maxStreak)
  | .levelComplete, .pred p => p stats
  | .precision, .num g => stats.gameCompleted && decide (stats.incorrectPresses = g)
  | _, _ => false

/-- The `forEach` accumulation of `checkAchievements` over a list of
achievement definitions: skip the already-unlocked, collect the ids whose
condition holds, in definition order. -/
def checkAchievementsList (stats : GameStats)
    (unlocked : List (String × String)) : List Achievement → List String
  | [] => []
  | a :: rest =>
      if isTruthyAt unlocked a.id then checkAchievementsList stats unlocked rest
      else if evalAchievement stats a then
        a.id :: checkAchievementsList stats unlocked rest
      else checkAchievementsList stats unlocked rest

/-- `checkAchievements` from `src/services/achievementService.ts`. -/
def checkAchievements (stats : GameStats)
    (unlocked : List (String × String)) : List String :=
  checkAchievementsList stats unlocked ALL_ACHIEVEMENTS

/-- The claim's per-category unlock condition, written from the spec's
words (§4.5): score means `stats.score ≥ goal`, streak means
`stats.maxStreak ≥ goal`, precision means the game completed with
`incorrectPresses == goal`, generic and level-completion apply the
predicate, `action` never unlocks, and a goal of the wrong shape for its
category is skipped. -/
def specUnlockCondition (stats : GameStats) (a : Achievement) : Bool :=
  match a.type with
  | .score => match a.goal with
      | .num g => decide (stats.score ≥ (g : Int))
      | .pred _ => false
  | .streak => match a.goal with
      | .num g => decide (stats.maxStreak ≥ g)
      | .pred _ => false
  | .precision => match a.goal with
      | .num g => stats.gameCompleted && decide (stats.incorrectPresses = g)
      | .pred _ => false
  | .generic => match a.goal with
      | .pred p => p stats
      | .num _ => false
  | .levelComplete => match a.goal with
      | .pred p => p stats
      | .num _ => false
  | .action => false

/-! ### Sequence generator (`src/unnamed/part_003` and the earlier variant
in `src/hooks/useGameLogic.ts`)

Randomness is an oracle `List Nat`: each `Math.random()`-based pick of an
index into an array of length `k` consumes one oracle value `r` and picks
index `r % k`, which ranges over exactly the indices the source can pick. -/

/-- `getRandomStimulus` from the `part_003` generator: draw from the pool
minus the excluded ids, falling back to the unconstrained full pool when
nothing remains.  (The source's `exclude.filter(s => s)` null filter is
dropped: every exclusion passed is a real stimulus.)  Returns the pick and
the remaining oracle. -/
def getRandomStimulus (stimuli : List Stimulus) (exclude : List Stimulus)
    (rands : List Nat) : Stimulus × List Nat :=
  let excludeIds := exclude.map Stimulus.id
  let available := stimuli.filter fun s => !(decide (s.id ∈ excludeIds))
  if available.isEmpty then
    (stimuli.getD (rands.headD 0 % stimuli.length) default, rands.tail)
  else
    (available.getD (rands.headD 0 % available.length) default, rands.tail)

/-- Step 1 of the `part_003` generator: the first `nLevel` positions, each
drawn excluding every previously chosen one (`sequence.slice(0, i)`). -/
def buildInitial (stimuli : List Stimulus) :
    Nat → List Stimulus → List Nat → List Stimulus × List Nat
  | 0, acc, rands => (acc, rands)
  | k + 1, acc, rands =>
      let pr := getRandomStimulus stimuli acc rands
      buildInitial stimuli k (acc ++ [pr.1]) pr.2

/-- Swap two positions of a list (the JS destructuring swap); out-of-range
indices leave the list unchanged. -/
def listSwap (l : List Bool) (i j : Nat) : List Bool :=
  match l.get? i, l.get? j with
  | some a, some b => (l.set i b).set j a
  | _, _ => l

/-- The Fisher-Yates loop body, indexed by the descending loop variable:
at index `i + 1` the source draws `j = floor(random * (i + 2))` and swaps. -/
def fyAux : Nat → List Bool → List Nat → List Bool × List Nat
  | 0, l, rands => (l, rands)
  | i + 1, l, rands =>
      fyAux i (listSwap l (i + 1) (rands.headD 0 % (i + 2))) rands.tail

/-- The Fisher-Yates shuffle of the turn types (`part_003` lines 125-128). -/
def fisherYates (l : List Bool) (rands : List Nat) : List Bool × List Nat :=
  fyAux (l.length - 1) l rands

/-- The backward search of `balanceTurnTypes` (lines 42-47): scan `j` from
the end of the array down to just past the window (`j > lo`), returning the
first index holding a value different from the streak type. -/
def findSwapDesc (l : List Bool) (t : Bool) (lo : Nat) : Nat → Option Nat
  | 0 => none
  | j + 1 =>
      if j + 1 ≤ lo then none
      else if l.getD (j + 1) false != t then some (j + 1)
      else findSwapDesc l t lo j

/-- One iteration of the balancing scan at window start `i`
(`balanceTurnTypes` lines 29-54): if the window of `maxStreak + 1`
positions is full-length and uniform, swap its last element with a later
differing element when one exists.  Returns the new list and whether a
swap happened. -/
def passBody (ms : Nat) (l : List Bool) (i : Nat) : List Bool × Bool :=
  let slice := (l.drop i).take (ms + 1)
  if slice.length < ms + 1 then (l, false)
  else
    let streakType := slice.getD 0 false
    if slice.all fun v => v == streakType then
      match findSwapDesc l streakType (i + ms) (l.length - 1) with
      | some j => (listSwap l (i + ms) j, true)
      | none => (l, false)
    else (l, false)

/-- The inner `for` loop of a balancing pass: run `passBody` at
`i, i+1, ...` for the given number of steps, accumulating the
changes-made flag. -/
def passFromI (ms : Nat) : Nat → Nat → List Bool → Bool → List Bool × Bool
  | 0, _, l, ch => (l, ch)
  | steps + 1, i, l, ch =>
      let (l1, ch1) := passBody ms l i
      passFromI ms steps (i + 1) l1 (ch || ch1)

/-- One full balancing pass: `i` ranges over `0 .. length - maxStreak`
(the source's loop bound; windows too close to the end are skipped inside
`passBody` by the slice-length check). -/
def balancePassOnce (l : List Bool) (ms : Nat) : List Bool × Bool :=
  passFromI ms (l.length - ms + 1) 0 l false

/-- The `while (passes < maxPasses)` loop of `balanceTurnTypes` with
`maxPasses = 5`: repeat full passes while a pass makes a change, up to the
cap.  The Boolean result records whether the pass cap was exhausted while
changes were still being made. -/
def balanceRun (ms : Nat) : Nat → List Bool → List Bool × Bool
  | 0, l => (l, true)
  | fuel + 1, l =>
      let (l1, ch) := balancePassOnce l ms
      if ch then balanceRun ms fuel l1 else (l1, false)

/-- `balanceTurnTypes` from `src/unnamed/part_003` (lines 20-62). -/
def balanceTurnTypes (types : List Bool) (maxStreak : Nat) : List Bool :=
  (balanceRun maxStreak 5 types).1

/-- `numMatches = Math.max(1, Math.round(remainingTurns * 0.33))`.
For every session-scale `r` the double-precision product `r * 0.33`
rounds (`Math.round`, half-up) to the same integer as the exact rational
`33r/100` rounded half-up, which is `(33r + 50) / 100` in `Nat`
arithmetic: the double nearest to 0.33 exceeds it by less than 2e-18, so
the product differs from `33r/100` by far less than the distance to the
nearest half-integer boundary except exactly at `.5`, where both round up. -/
def numMatchesOf (remaining : Nat) : Nat :=
  max 1 ((33 * remaining + 50) / 100)

/-- The unshuffled turn-type assignment: `numMatches` matches (`true`)
followed by the non-matches (`false`). -/
def initialTurnTypes (remaining : Nat) : List Bool :=
  List.replicate (numMatchesOf remaining) true
    ++ List.replicate (remaining - numMatchesOf remaining) false

/-- The non-match exclusion list (`part_003` lines 146-150): the n-back
stimulus, plus — at `n = 1` — the immediately preceding one (which is the
same position, since `turnIndex - 1 = turnIndex - n`). -/
def fillExclusions (n : Nat) (seq : List Stimulus) : List Stimulus :=
  if n == 1 then
    [seq.getD (seq.length - n) default, seq.getD (seq.length - 1) default]
  else [seq.getD (seq.length - n) default]

/-- Step 3 of the `part_003` generator (lines 134-153): extend the
sequence one pre-assigned turn type at a time.  The n-back stimulus of the
position being generated is `sequence[turnIndex - nLevel]`, i.e. the
element `n` places before the current end.  A match turn copies it; a
non-match turn draws excluding it. -/
def fillLoop (stimuli : List Stimulus) (n : Nat) :
    List Bool → List Stimulus → List Nat → List Stimulus
  | [], seq, _ => seq
  | t :: ts, seq, rands =>
      if t then
        fillLoop stimuli n ts (seq ++ [seq.getD (seq.length - n) default])
          rands
      else
        let pr := getRandomStimulus stimuli (fillExclusions n seq) rands
        fillLoop stimuli n ts (seq ++ [pr.1]) pr.2

/-- The `gameSequence` memo of `src/unnamed/part_003` (lines 84-156),
returning the generated sequence together with the balanced turn-type
assignment it used (the source keeps the latter internal; it is exposed
here so the match/non-match correspondence can be stated). -/
def gameSequenceCore (stimuli : List Stimulus) (settings : GameSettings)
    (rands : List Nat) : List Stimulus × List Bool :=
  if stimuli.length < 2 then ([], [])
  else
    let init := buildInitial stimuli settings.nLevel [] rands
    let remaining := settings.gameLength - settings.nLevel
    if remaining = 0 then (init.1, [])
    else
      let sh := fisherYates (initialTurnTypes remaining) init.2
      let balanced := balanceTurnTypes sh.1 3
      (fillLoop stimuli settings.nLevel balanced init.1 sh.2, balanced)

/-- The generated stimulus sequence of the `part_003` generator. -/
def gameSequence (stimuli : List Stimulus) (settings : GameSettings)
    (rands : List Nat) : List Stimulus :=
  (gameSequenceCore stimuli settings rands).1

/-- The balanced turn-type assignment used by the `part_003` generator. -/
def gameTurnTypes (stimuli : List Stimulus) (settings : GameSettings)
    (rands : List Nat) : List Bool :=
  (gameSequenceCore stimuli settings rands).2

/-- The loop of the earlier `gameSequence` in `src/hooks/useGameLogic.ts`
(lines 32-44): with probability 0.3 (here: oracle draw `r % 10 < 3`) a
position at or past `nLevel` repeats the n-back element, otherwise an
unconstrained random pick; oracle values are consumed exactly where the
source calls `Math.random()`. -/
def legacyGo (stimuli : List Stimulus) (n : Nat) :
    Nat → List Stimulus → List Nat → List Stimulus
  | 0, seq, _ => seq
  | k + 1, seq, rands =>
      if n ≤ seq.length then
        -- `i >= nLevel && Math.random() < 0.3`: the Bernoulli draw happens
        -- only at or past position n (JS short-circuit)
        if rands.headD 0 % 10 < 3 then
          legacyGo stimuli n k (seq ++ [seq.getD (seq.length - n) default])
            rands.tail
        else
          legacyGo stimuli n k
            (seq ++ [stimuli.getD (rands.tail.headD 0 % stimuli.length)
              default])
            rands.tail.tail
      else
        legacyGo stimuli n k
          (seq ++ [stimuli.getD (rands.headD 0 % stimuli.length) default])
          rands.tail

/-- The earlier `gameSequence` of `src/hooks/useGameLogic.ts`: empty only
for an empty pool (`stimuli.length === 0`), otherwise `gameLength`
positions. -/
def legacyGameSequence (stimuli : List Stimulus) (settings : GameSettings)
    (rands : List Nat) : List Stimulus :=
  if stimuli.length == 0 then []
  else legacyGo stimuli settings.nLevel settings.gameLength [] rands

/-- Length of the longest run of consecutive equal values. -/
def longestRunGo : List Bool → Bool → Nat → Nat → Nat
  | [], _, _, best => best
  | y :: ys, cur, len, best =>
      if y == cur then longestRunGo ys cur (len + 1) (max best (len + 1))
      else longestRunGo ys y 1 best

/-- Longest run of consecutive identical assignments in a turn-type list. -/
def longestRun : List Bool → Nat
  | [] => 0
  | x :: xs => longestRunGo xs x 1 1

end NBack

namespace NBack

/-- The guarded cascade division: below 10 the step contributes nothing,
which is exactly `x / 10`. -/
theorem guarded_div10 (x : Nat) : (if x ≥ 10 then x / 10 else 0) = x / 10 := by
  split <;> omega

/-- The guarded cascade remainder: below 10 the tier keeps its value,
which is exactly `x % 10`. -/
theorem guarded_mod10 (x : Nat) : (if x ≥ 10 then x % 10 else x) = x % 10 := by
  split <;> omega

/-- The new total of `processRewards` is the one-session instance of the
combined cascade. -/
theorem processRewards_snd (r : PlayerRewards) (s : Nat) (p : Bool) :
    (processRewards r s p).2 = cascadeCombined r s (if p then 1 else 0) := by
  cases p <;>
    simp [processRewards, cascadeCombined, guarded_div10, guarded_mod10]

/-- Core associativity of the cascade: two sequential cascades equal one
cascade of the summed inputs. -/
theorem cascadeCombined_assoc (r : PlayerRewards) (a b e1 e2 : Nat) :
    cascadeCombined (cascadeCombined r a e1) b e2
      = cascadeCombined r (a + b) (e1 + e2) := by
  simp only [cascadeCombined, guarded_div10, guarded_mod10,
    PlayerRewards.mk.injEq]
  refine ⟨?_, ?_, ?_, ?_⟩ <;> omega

/-- C1: `processRewards` is associative over sessions.  For every starting
totals `r` with stars, gems and trophies below 10 and star gains `a, b`,
running the cascade twice yields the same new total as one cascade of the
combined inputs (summed stars, counted perfect bonuses); in particular
`{0,0,0,0}`, then 7 stars (no perfect), then 8 stars with the perfect
bonus, ends at `{stars 5, gems 2, trophies 0, perfectScores 0}`. -/
theorem processRewards_assoc (r : PlayerRewards) (a b : Nat) (p1 p2 : Bool)
    (hs : r.stars < 10) (hg : r.gems < 10) (ht : r.trophies < 10) :
    (processRewards (processRewards r a p1).2 b p2).2
        = cascadeCombined r (a + b)
            ((if p1 then 1 else 0) + (if p2 then 1 else 0))
      ∧ (processRewards (processRewards ⟨0, 0, 0, 0⟩ 7 false).2 8 true).2
        = ⟨5, 2, 0, 0⟩ := by
  refine ⟨?_, by decide⟩
  rw [processRewards_snd, processRewards_snd, cascadeCombined_assoc]

/-- Witness for C1 at the concrete inputs of the claim. -/
theorem processRewards_assoc_witness :
    (processRewards (processRewards ⟨0, 0, 0, 0⟩ 7 false).2 8 true).2
      = ⟨5, 2, 0, 0⟩ :=
  (processRewards_assoc ⟨0, 0, 0, 0⟩ 7 8 false true (by decide) (by decide)
    (by decide)).2

/-- C6: the reward cascade preserves the tier bounds.  For totals whose
stars, gems and trophies are below 10, any star gain and either perfect
flag, the new total keeps stars, gems and trophies below 10
(perfect scores are unbounded), and each tier is characterised by base-10
carry arithmetic: the conversion fires only when the pre-cascade total of
the tier reaches 10 (the `/ 10` carry is zero otherwise) and the remainder
(`% 10`) stays in the tier. -/
theorem processRewards_tier_invariant (r : PlayerRewards) (a : Nat) (p : Bool)
    (hs : r.stars < 10) (hg : r.gems < 10) (ht : r.trophies < 10) :
    ((processRewards r a p).2.stars < 10
        ∧ (processRewards r a p).2.gems < 10
        ∧ (processRewards r a p).2.trophies < 10)
      ∧ (processRewards r a p).2.stars = (r.stars + a) % 10
      ∧ (processRewards r a p).2.gems
          = (r.gems + (if p then 1 else 0) + (r.stars + a) / 10) % 10
      ∧ (processRewards r a p).2.trophies
          = (r.trophies
              + (r.gems + (if p then 1 else 0) + (r.stars + a) / 10) / 10) % 10
      ∧ (processRewards r a p).2.perfectScores
          = r.perfectScores
            + (r.trophies
                + (r.gems + (if p then 1 else 0) + (r.stars + a) / 10) / 10)
              / 10 := by
  rw [processRewards_snd]
  refine ⟨⟨?_, ?_, ?_⟩, ?_, ?_, ?_, ?_⟩ <;>
    cases p <;>
      simp [cascadeCombined, guarded_div10, guarded_mod10] <;>
        omega

/-- Witness for C6 at a concrete input that exercises two cascade steps. -/
theorem processRewards_tier_invariant_witness :
    ((processRewards ⟨9, 9, 3, 0⟩ 14 true).2.stars < 10
        ∧ (processRewards ⟨9, 9, 3, 0⟩ 14 true).2.gems < 10
        ∧ (processRewards ⟨9, 9, 3, 0⟩ 14 true).2.trophies < 10)
      ∧ (processRewards ⟨9, 9, 3, 0⟩ 14 true).2.stars = (9 + 14) % 10 :=
  ⟨(processRewards_tier_invariant ⟨9, 9, 3, 0⟩ 14 true (by decide) (by decide)
      (by decide)).1,
   (processRewards_tier_invariant ⟨9, 9, 3, 0⟩ 14 true (by decide) (by decide)
      (by decide)).2.1⟩

/-- C5: `calculateStars` returns 0 for a non-positive score and otherwise
`floor(score / (5 * basePoints))` with `basePoints = 10 * 2^(nLevel-1)`;
concretely for `nLevel = 1` (conversion rate 50): scores 0, 49, 50, 249
give 0, 0, 1, 4 stars. -/
theorem calculateStars_spec (stats : GameStats) :
    (stats.score ≤ 0 → calculateStars stats = 0)
      ∧ (0 < stats.score →
          calculateStars stats
            = stats.score / (5 * (10 * 2 ^ (stats.settings.nLevel - 1))))
      ∧ calculateStars ⟨0, ⟨1, 1, "COLOR", 20, 2000⟩, 0, 0, true⟩ = 0
      ∧ calculateStars ⟨49, ⟨1, 1, "COLOR", 20, 2000⟩, 0, 0, true⟩ = 0
      ∧ calculateStars ⟨50, ⟨1, 1, "COLOR", 20, 2000⟩, 0, 0, true⟩ = 1
      ∧ calculateStars ⟨249, ⟨1, 1, "COLOR", 20, 2000⟩, 0, 0, true⟩ = 4 := by
  refine ⟨fun h => by simp [calculateStars, h], fun h => ?_,
    by decide, by decide, by decide, by decide⟩
  have hpow : (0 : Int) < 2 ^ (stats.settings.nLevel - 1) :=
    pow_pos (by norm_num) _
  rw [calculateStars, if_neg (by omega), if_neg (by intro hc; omega)]

/-- Witness for C5: the positive-score branch at score 249, n = 1. -/
theorem calculateStars_spec_witness :
    calculateStars ⟨249, ⟨1, 1, "COLOR", 20, 2000⟩, 0, 0, true⟩ = 4 :=
  (calculateStars_spec ⟨249, ⟨1, 1, "COLOR", 20, 2000⟩, 0, 0, true⟩).2.2.2.2.2

/-- `advanceTurn` never changes the score. -/
theorem advanceTurn_score (settings : GameSettings) (seq : List Stimulus)
    (st : GameState) : (advanceTurn settings seq st).score = st.score := by
  unfold advanceTurn
  split
  · rfl
  · dsimp only
    split <;> rfl

/-- `advanceTurn` never changes the current streak. -/
theorem advanceTurn_streak (settings : GameSettings) (seq : List Stimulus)
    (st : GameState) :
    (advanceTurn settings seq st).currentStreak = st.currentStreak := by
  unfold advanceTurn
  split
  · rfl
  · dsimp only
    split <;> rfl

/-- `advanceTurn` never changes the incorrect-press counter. -/
theorem advanceTurn_incorrect (settings : GameSettings) (seq : List Stimulus)
    (st : GameState) :
    (advanceTurn settings seq st).incorrectPresses = st.incorrectPresses := by
  unfold advanceTurn
  split
  · rfl
  · dsimp only
    split <;> rfl

/-- C3: scoring of an explicit response at a position at or past `n` while
not paused and not yet responded.  A correct response adds exactly
`basePoints + (newStreak - 1) * 5 * n` (the new streak being the
incremented one); an incorrect response subtracts `ceil(basePoints / 2)`
clamped at zero, resets the streak and increments the incorrect-press
counter.  Concretely at `n = 2`: a first correct match adds 20, a second
consecutive correct match adds 30, and an incorrect response right after
subtracts 10 and resets the streak. -/
theorem handleMatch_scoring (settings : GameSettings) (seq : List Stimulus)
    (st : GameState) (userPressedMatch : Bool)
    (hn : settings.nLevel ≤ st.turn) (hr : st.userResponded = false) :
    ((userPressedMatch = matchIdsAt settings.nLevel seq st.turn →
        (handleMatch settings seq false st userPressedMatch).score
            = st.score + (basePoints settings.nLevel : Int)
              + (st.currentStreak * (5 * settings.nLevel) : Nat)
          ∧ (handleMatch settings seq false st userPressedMatch).currentStreak
            = st.currentStreak + 1)
      ∧ (userPressedMatch ≠ matchIdsAt settings.nLevel seq st.turn →
          (handleMatch settings seq false st userPressedMatch).score
              = max 0 (st.score - (penalty settings.nLevel : Int))
            ∧ (handleMatch settings seq false st userPressedMatch).currentStreak
              = 0
            ∧ (handleMatch settings seq false st
                userPressedMatch).incorrectPresses
              = st.incorrectPresses + 1))
      ∧ (let settingsC : GameSettings := ⟨1, 2, "COLOR", 5, 2000⟩
         let A : Stimulus := ⟨"a", "COLOR", "a", none⟩
         let B : Stimulus := ⟨"b", "COLOR", "b", none⟩
         let seqC := [A, B, A, B, A]
         let st2 : GameState := ⟨2, 0, [], false, false, .neutral, 0, 0, 0⟩
         let u1 := handleMatch settingsC seqC false st2 true
         let u2 := handleMatch settingsC seqC false
           (advanceTurn settingsC seqC u1) true
         let u3 := handleMatch settingsC seqC false
           (advanceTurn settingsC seqC u2) false
         u1.score = st2.score + 20 ∧ u2.score = u1.score + 30
           ∧ u3.score = u2.score - 10 ∧ u3.currentStreak = 0
           ∧ u3.incorrectPresses = u2.incorrectPresses + 1) := by
  refine ⟨⟨fun h => ?_, fun h => ?_⟩, by decide⟩
  · simp [handleMatch, hr, Nat.not_lt.mpr hn, h]
  · have hb : (userPressedMatch == matchIdsAt settings.nLevel seq st.turn)
        = false := beq_eq_false_iff_ne.mpr h
    simp [handleMatch, hr, Nat.not_lt.mpr hn, hb]

/-- Witness for C3: the concrete n = 2 scoring chain of the claim. -/
theorem handleMatch_scoring_witness :
    (handleMatch ⟨1, 2, "COLOR", 5, 2000⟩
        [⟨"a", "COLOR", "a", none⟩, ⟨"b", "COLOR", "b", none⟩,
         ⟨"a", "COLOR", "a", none⟩, ⟨"b", "COLOR", "b", none⟩,
         ⟨"a", "COLOR", "a", none⟩] false
        ⟨2, 0, [], false, false, .neutral, 0, 0, 0⟩ true).score = 0 + 20 :=
  ((handleMatch_scoring ⟨1, 2, "COLOR", 5, 2000⟩
      [⟨"a", "COLOR", "a", none⟩, ⟨"b", "COLOR", "b", none⟩,
       ⟨"a", "COLOR", "a", none⟩, ⟨"b", "COLOR", "b", none⟩,
       ⟨"a", "COLOR", "a", none⟩]
      ⟨2, 0, [], false, false, .neutral, 0, 0, 0⟩ true (by decide)
      rfl).2).1

/-- C9: the game-over transition is idempotent.  When the game-over flag is
already set, `advanceTurn` changes nothing at all. -/
theorem advanceTurn_gameOver_idem (settings : GameSettings)
    (seq : List Stimulus) (st : GameState) (h : st.isGameOver = true) :
    advanceTurn settings seq st = st := by
  simp [advanceTurn, h]

/-- Witness for C9 at a concrete terminal state. -/
theorem advanceTurn_gameOver_idem_witness :
    advanceTurn ⟨1, 2, "COLOR", 5, 2000⟩ []
        ⟨4, 40, [], true, true, .incorrect, 0, 2, 1⟩
      = ⟨4, 40, [], true, true, .incorrect, 0, 2, 1⟩ :=
  advanceTurn_gameOver_idem ⟨1, 2, "COLOR", 5, 2000⟩ []
    ⟨4, 40, [], true, true, .incorrect, 0, 2, 1⟩ rfl

/-- C10: the correct no-op streak policies of the two variants.  When the
per-turn timer elapses with no response and no true match at the current
position, the `src/hooks/useGameLogic.ts` variant resets the streak to zero
while leaving score and incorrect presses unchanged; the
`src/unnamed/part_003` variant leaves the streak (and score and incorrect
presses) unchanged. -/
theorem noopStreakPolicy (settings : GameSettings) (seq : List Stimulus)
    (stimuliCount : Nat) (st : GameState)
    (hg : st.isGameOver = false) (hr : st.userResponded = false)
    (hc : stimuliCount ≠ 0) (hs : seq.length ≠ 0)
    (hnm : actualMatchAt settings.nLevel seq st.turn = false) :
    ((timerElapsed settings seq stimuliCount false st).currentStreak = 0
      ∧ (timerElapsed settings seq stimuliCount false st).score = st.score
      ∧ (timerElapsed settings seq stimuliCount false st).incorrectPresses
        = st.incorrectPresses)
    ∧ ((timerElapsedBalanced settings seq stimuliCount false st).currentStreak
        = st.currentStreak
      ∧ (timerElapsedBalanced settings seq stimuliCount false st).score
        = st.score
      ∧ (timerElapsedBalanced settings seq stimuliCount false
          st).incorrectPresses
        = st.incorrectPresses) := by
  simp [timerElapsed, timerElapsedBalanced, hg, hr, hc, hs, hnm,
    advanceTurn_score, advanceTurn_streak, advanceTurn_incorrect]

/-- Under the §3 data contract (unlock timestamps are non-empty ISO
strings), the JS truthiness test of `checkAchievements` is key presence. -/
theorem isTruthyAt_eq (unlocked : List (String × String))
    (hvals : ∀ p ∈ unlocked, p.2 ≠ "") (id : String) :
    isTruthyAt unlocked id = decide (id ∈ unlocked.map Prod.fst) := by
  induction unlocked with
  | nil => rfl
  | cons hd tl ih =>
    have hv : hd.2 ≠ "" := hvals hd (by simp)
    have htl := ih fun p hp => hvals p (List.mem_cons_of_mem _ hp)
    by_cases hk : id = hd.1
    · simp [isTruthyAt, List.lookup, hk, bne_iff_ne, hv]
    · simp only [isTruthyAt, List.lookup, beq_eq_false_iff_ne.mpr hk,
        List.map_cons, List.mem_cons]
      rw [← isTruthyAt]
      simp [htl, hk]

/-- The `switch` of the evaluator computes exactly the spec's per-category
condition. -/
theorem evalAchievement_eq (stats : GameStats) (a : Achievement) :
    evalAchievement stats a = specUnlockCondition stats a := by
  rcases a with ⟨id, nm, d, e, t, g⟩
  cases t <;> cases g <;> simp [evalAchievement, specUnlockCondition, ge_iff_le]

/-- The evaluator loop is a filter over the definition list, keeping the
not-yet-unlocked achievements whose condition holds, in definition order. -/
theorem checkAchievementsList_eq_filter (stats : GameStats)
    (unlocked : List (String × String)) (l : List Achievement) :
    checkAchievementsList stats unlocked l
      = (l.filter fun a => !(isTruthyAt unlocked a.id)
          && evalAchievement stats a).map (fun a => a.id) := by
  induction l with
  | nil => rfl
  | cons a rest ih =>
    cases h1 : isTruthyAt unlocked a.id <;>
      cases h2 : evalAchievement stats a <;>
        simp [checkAchievementsList, h1, h2, ih]

/-- A `specUnlockCondition` is never satisfied by an `action` achievement. -/
theorem specUnlockCondition_action (stats : GameStats) (a : Achievement)
    (h : a.type = .action) : specUnlockCondition stats a = false := by
  rcases a with ⟨id, nm, d, e, t, g⟩
  cases h
  rfl

/-- C4: `checkAchievements` returns exactly the ids of definitions that are
not already unlocked and whose goal holds for the stats per their category
(score / streak thresholds, precision on completion, generic and
level-completion predicates); it never returns an `action` id, never
returns an id already present in the unlocked map even when its condition
holds, and skips goal-shape mismatches (all folded into
`specUnlockCondition`).  Timestamps are assumed non-empty per the §3 data
contract, so JS truthiness is key presence. -/
theorem checkAchievements_spec (stats : GameStats)
    (unlocked : List (String × String))
    (hvals : ∀ p ∈ unlocked, p.2 ≠ "") :
    checkAchievements stats unlocked
        = (ALL_ACHIEVEMENTS.filter fun a =>
            !(decide (a.id ∈ unlocked.map Prod.fst))
              && specUnlockCondition stats a).map (fun a => a.id)
      ∧ (∀ a ∈ ALL_ACHIEVEMENTS, a.type = .action →
          a.id ∉ checkAchievements stats unlocked)
      ∧ (∀ p ∈ unlocked, p.1 ∉ checkAchievements stats unlocked) := by
  have hmain : checkAchievements stats unlocked
      = (ALL_ACHIEVEMENTS.filter fun a =>
          !(decide (a.id ∈ unlocked.map Prod.fst))
            && specUnlockCondition stats a).map (fun a => a.id) := by
    rw [checkAchievements, checkAchievementsList_eq_filter]
    congr 1
    apply List.filter_congr
    intro a _
    rw [isTruthyAt_eq unlocked hvals a.id, evalAchievement_eq]
  have hid : ∀ a ∈ ALL_ACHIEVEMENTS, ∀ b ∈ ALL_ACHIEVEMENTS,
      a.id = b.id → a.type = b.type := by decide
  refine ⟨hmain, ?_, ?_⟩
  · intro a ha htype hmem
    rw [hmain] at hmem
    obtain ⟨b, hb, hbid⟩ := List.mem_map.mp hmem
    have hbf := List.mem_filter.mp hb
    have hbtype : b.type = .action := by
      rw [hid b hbf.1 a ha hbid, htype]
    have := hbf.2
    rw [Bool.and_eq_true, specUnlockCondition_action stats b hbtype] at this
    exact Bool.false_ne_true this.2
  · intro p hp hmem
    rw [hmain] at hmem
    obtain ⟨b, hb, hbid⟩ := List.mem_map.mp hmem
    have hbf := List.mem_filter.mp hb
    have hpres : b.id ∈ unlocked.map Prod.fst :=
      hbid ▸ List.mem_map.mpr ⟨p, hp, rfl⟩
    have := hbf.2
    rw [Bool.and_eq_true, Bool.not_eq_true', decide_eq_false_iff_not] at this
    exact this.1 hpres

/-- Witness for C4: the spec's concrete example — stats
`{score 500, maxStreak 5, incorrectPresses 0, completed, n = 1}` with
`first_game` already unlocked yields exactly the score-500, streak-5 and
precision-zero ids, excluding the already-present id. -/
theorem checkAchievements_spec_witness :
    checkAchievements ⟨500, ⟨1, 1, "COLOR", 20, 2000⟩, 5, 0, true⟩
        [("first_game", "2024-01-01T00:00:00.000Z")]
      = ["score_500", "streak_5", "perfect_precision"] := by
  rw [(checkAchievements_spec ⟨500, ⟨1, 1, "COLOR", 20, 2000⟩, 5, 0, true⟩
    [("first_game", "2024-01-01T00:00:00.000Z")] (by decide)).1]
  rfl

/-- C7 counterexample: the claim fails on the earlier generator of
`src/hooks/useGameLogic.ts`, which only rejects an empty pool
(`stimuli.length === 0`): a pool with exactly one stimulus — fewer than 2
entries — yields a full-length, non-empty sequence. -/
theorem legacy_degenerate_pool_counterexample :
    legacyGameSequence [⟨"a", "COLOR", "a", none⟩] ⟨1, 1, "COLOR", 2, 2000⟩ []
        = [⟨"a", "COLOR", "a", none⟩, ⟨"a", "COLOR", "a", none⟩]
      ∧ legacyGameSequence [⟨"a", "COLOR", "a", none⟩]
          ⟨1, 1, "COLOR", 2, 2000⟩ [] ≠ [] := by
  refine ⟨by decide, by decide⟩

/-- C7 (amended): the balanced `part_003` generator yields an empty
sequence for every pool with fewer than 2 entries; the earlier
`useGameLogic.ts` generator yields an empty sequence only for an empty
pool. -/
theorem degenerate_pool_spec :
    (∀ (stimuli : List Stimulus) (settings : GameSettings)
        (rands : List Nat), stimuli.length < 2 →
        gameSequence stimuli settings rands = [])
      ∧ (∀ (settings : GameSettings) (rands : List Nat),
          legacyGameSequence [] settings rands = []) := by
  constructor
  · intro stimuli settings rands h
    simp [gameSequence, gameSequenceCore, h]
  · intro settings rands
    simp [legacyGameSequence]

/-- Witness for C7 at a one-element pool and the empty pool. -/
theorem degenerate_pool_spec_witness :
    gameSequence [⟨"a", "COLOR", "a", none⟩] ⟨1, 1, "COLOR", 5, 2000⟩ [] = []
      ∧ legacyGameSequence [] ⟨1, 1, "COLOR", 5, 2000⟩ [] = [] :=
  ⟨(degenerate_pool_spec).1 [⟨"a", "COLOR", "a", none⟩]
      ⟨1, 1, "COLOR", 5, 2000⟩ [] (by decide),
   (degenerate_pool_spec).2 ⟨1, 1, "COLOR", 5, 2000⟩ []⟩

/-- Read a window element through the `drop`/`take` slice. -/
theorem getD_take_drop (l : List Bool) (i m k : Nat) (hk : k < m) :
    ((l.drop i).take m).getD k false = l.getD (i + k) false := by
  rw [List.getD_eq_getElem?_getD, List.getD_eq_getElem?_getD,
    List.getElem?_take_of_lt hk, List.getElem?_drop]

/-- When the backward search finds nothing, every element strictly after
the window equals the streak type. -/
theorem findSwapDesc_none_eq (l : List Bool) (t : Bool) (lo : Nat) :
    ∀ start, findSwapDesc l t lo start = none →
      ∀ j, lo < j → j ≤ start → l.getD j false = t := by
  intro start
  induction start with
  | zero => intro _ j hj1 hj2; omega
  | succ s ih =>
    intro h j hj1 hj2
    simp only [findSwapDesc] at h
    by_cases hlo : s + 1 ≤ lo
    · omega
    · rw [if_neg hlo] at h
      by_cases hne : (l.getD (s + 1) false != t) = true
      · rw [if_pos hne] at h
        exact absurd h (by simp)
      · rw [if_neg hne] at h
        rcases Nat.lt_or_ge j (s + 1) with hj | hj
        · exact ih h j hj1 (by omega)
        · have hj' : j = s + 1 := by omega
          subst hj'
          simpa using hne

/-- A scan step that reports no change leaves the list unchanged, and if
its window is full-length and uniform then everything after the window
carries the same value (the backward search found no differing element). -/
theorem passBody_no_change (ms : Nat) (l : List Bool) (i : Nat)
    (h : (passBody ms l i).2 = false) :
    (passBody ms l i).1 = l
      ∧ (i + ms + 1 ≤ l.length →
          (∀ k, k ≤ ms → l.getD (i + k) false = l.getD i false) →
          ∀ j, i + ms < j → j < l.length → l.getD j false = l.getD i false) := by
  by_cases h1 : ((l.drop i).take (ms + 1)).length < ms + 1
  · refine ⟨by simp only [passBody]; rw [if_pos h1], fun hlen _ j _ hj2 => ?_⟩
    rw [List.length_take, List.length_drop] at h1
    omega
  · have h0 : ((l.drop i).take (ms + 1)).getD 0 false = l.getD i false := by
      rw [getD_take_drop l i (ms + 1) 0 (by omega)]
      simp
    by_cases h2 : ((l.drop i).take (ms + 1)).all
        (fun v => v == ((l.drop i).take (ms + 1)).getD 0 false) = true
    · cases h3 : findSwapDesc l (((l.drop i).take (ms + 1)).getD 0 false)
          (i + ms) (l.length - 1) with
      | some j =>
          exfalso
          have hT : (passBody ms l i).2 = true := by
            simp only [passBody]
            rw [if_neg h1, if_pos h2, h3]
          rw [h] at hT
          exact Bool.false_ne_true hT
      | none =>
          refine ⟨by simp only [passBody]; rw [if_neg h1, if_pos h2, h3],
            fun hlen huni j hj1 hj2 => ?_⟩
          have hrun := findSwapDesc_none_eq l _ (i + ms) (l.length - 1) h3 j
            hj1 (by omega)
          rw [h0] at hrun
          exact hrun
    · refine ⟨by simp only [passBody]; rw [if_neg h1, if_neg h2],
        fun hlen huni j hj1 hj2 => ?_⟩
      exfalso
      apply h2
      rw [List.all_eq_true]
      intro v hv
      obtain ⟨k, hk, hkv⟩ := List.mem_iff_getElem.mp hv
      have hklen : k < ms + 1 := by
        rw [List.length_take, List.length_drop] at hk
        omega
      have hkD : ((l.drop i).take (ms + 1)).getD k false = v := by
        rw [List.getD_eq_getElem _ _ hk]
        exact hkv
      rw [getD_take_drop l i (ms + 1) k hklen] at hkD
      have hv2 : v = l.getD i false := by
        rw [← hkD, huni k (by omega)]
      rw [h0, hv2]
      simp

/-- An inner loop run that reports no change leaves the list unchanged,
started from a clear flag, with every visited scan step reporting no
change. -/
theorem passFromI_no_change (ms : Nat) :
    ∀ steps i l ch, (passFromI ms steps i l ch).2 = false →
      (passFromI ms steps i l ch).1 = l ∧ ch = false
        ∧ ∀ k, k < steps → (passBody ms l (i + k)).2 = false := by
  intro steps
  induction steps with
  | zero =>
    intro i l ch h
    exact ⟨rfl, h, fun k hk => absurd hk (by omega)⟩
  | succ s ih =>
    intro i l ch h
    rcases hpb : passBody ms l i with ⟨l1, ch1⟩
    simp only [passFromI, hpb] at h
    obtain ⟨he, hor, hall⟩ := ih (i + 1) l1 (ch || ch1) h
    have hch : ch = false := by
      cases ch
      · rfl
      · simp at hor
    have hb1 : ch1 = false := by
      cases ch1
      · rfl
      · rw [hch] at hor
        simp at hor
    have hbody : (passBody ms l i).2 = false := by rw [hpb, hb1]
    have hfst : l1 = l := by
      have := (passBody_no_change ms l i hbody).1
      rw [hpb] at this
      exact this
    refine ⟨?_, hch, fun k hk => ?_⟩
    · simp only [passFromI, hpb]
      rw [he, hfst]
    · cases k with
      | zero => simpa using hbody
      | succ k2 =>
          have := hall k2 (by omega)
          rw [hfst] at this
          have harith : i + 1 + k2 = i + (k2 + 1) := by omega
          rw [harith] at this
          exact this

/-- One full balancing pass that reports no change leaves the list
unchanged and had every scan step report no change. -/
theorem balancePassOnce_no_change (l : List Bool) (ms : Nat)
    (h : (balancePassOnce l ms).2 = false) :
    (balancePassOnce l ms).1 = l
      ∧ ∀ k, k < l.length - ms + 1 → (passBody ms l k).2 = false := by
  obtain ⟨h1, _, h3⟩ := passFromI_no_change ms (l.length - ms + 1) 0 l false h
  exact ⟨h1, fun k hk => by simpa using h3 k hk⟩

/-- When `balanceTurnTypes` terminates without exhausting the pass cap,
its result is a fixed point: a further full pass makes no change. -/
theorem balanceRun_fix (ms : Nat) :
    ∀ fuel l, (balanceRun ms fuel l).2 = false →
      balancePassOnce (balanceRun ms fuel l).1 ms
        = ((balanceRun ms fuel l).1, false) := by
  intro fuel
  induction fuel with
  | zero =>
    intro l h
    simp [balanceRun] at h
  | succ f ih =>
    intro l h
    rcases hp : balancePassOnce l ms with ⟨l1, ch⟩
    cases ch with
    | false =>
      have hl1 : l1 = l := by
        have hnc := balancePassOnce_no_change l ms (by rw [hp])
        have := hnc.1
        rw [hp] at this
        exact this
      simp only [balanceRun, hp, Bool.false_eq_true, if_false]
      rw [hl1, hp, hl1]
    | true =>
      simp only [balanceRun, hp, if_true] at h ⊢
      exact ih l1 h

/-- C8 (amended): when the balancing loop terminates before the 5-pass
cap, any full window of `maxStreak + 1` identical assignments that
survives in the output is followed only by assignments of the same type —
the run extends to the end of the array, because the backward swap search
only looks past the window.  A run of more than 4 (for `maxStreak = 3`)
can therefore survive without the cap being reached exactly when no
differing element lies after it (see the counterexample). -/
theorem balanceTurnTypes_uncapped_runs (types : List Bool) (ms : Nat)
    (hcap : (balanceRun ms 5 types).2 = false) :
    ∀ i, i + ms + 1 ≤ (balanceTurnTypes types ms).length →
      (∀ k, k ≤ ms → (balanceTurnTypes types ms).getD (i + k) false
          = (balanceTurnTypes types ms).getD i false) →
      ∀ j, i + ms < j → j < (balanceTurnTypes types ms).length →
        (balanceTurnTypes types ms).getD j false
          = (balanceTurnTypes types ms).getD i false := by
  intro i hlen huni j hj1 hj2
  have hfix := balanceRun_fix ms 5 types hcap
  have hnc := balancePassOnce_no_change (balanceRun ms 5 types).1 ms
    (by rw [hfix])
  simp only [balanceTurnTypes] at hlen huni hj2 ⊢
  have hpb := hnc.2 i (by omega)
  exact (passBody_no_change ms _ i hpb).2 hlen huni j hj1 hj2

/-- Witness for the amended C8 on the concrete uncapped counterexample
list: the window of four `false` at positions 2-5 forces position 6 to be
`false` as well. -/
theorem balanceTurnTypes_uncapped_runs_witness :
    (balanceRun 3 5 [true, true, false, false, false, false, false]).2 = false
      ∧ (balanceTurnTypes [true, true, false, false, false, false, false]
            3).getD 6 false
        = (balanceTurnTypes [true, true, false, false, false, false, false]
            3).getD 2 false :=
  ⟨by decide,
   balanceTurnTypes_uncapped_runs [true, true, false, false, false, false,
      false] 3 (by decide) 2 (by decide)
      (fun k hk => by interval_cases k <;> decide) 6 (by decide) (by decide)⟩

/-- C8 counterexample: a generator-produced turn-type array (13 remaining
turns would also work; here 7 remaining turns give `numMatches = 2`, and
the identity permutation is produced by the oracle `[6,5,4,3,2,1]`) whose
balanced output still contains a run of 5 — more than 4 — while the 5-pass
iteration cap was never reached: the loop stopped because a pass made no
change (no differing element lies after the trailing run). -/
theorem balanceTurnTypes_counterexample :
    numMatchesOf 7 = 2
      ∧ fisherYates (initialTurnTypes 7) [6, 5, 4, 3, 2, 1]
        = ([true, true, false, false, false, false, false], [])
      ∧ balanceTurnTypes [true, true, false, false, false, false, false] 3
        = [true, true, false, false, false, false, false]
      ∧ (balanceRun 3 5 [true, true, false, false, false, false, false]).2
        = false
      ∧ longestRun
          (balanceTurnTypes [true, true, false, false, false, false, false] 3)
        = 5 := by
  refine ⟨by decide, by decide, by decide, by decide, by decide⟩

/-- Swapping two positions preserves the length. -/
theorem listSwap_length (l : List Bool) (i j : Nat) :
    (listSwap l i j).length = l.length := by
  unfold listSwap
  cases l.get? i <;> cases l.get? j <;> simp

/-- The Fisher-Yates body preserves the length. -/
theorem fyAux_length : ∀ (i : Nat) (l : List Bool) (rands : List Nat),
    (fyAux i l rands).1.length = l.length := by
  intro i
  induction i with
  | zero => intro l rands; rfl
  | succ k ih =>
      intro l rands
      simp only [fyAux]
      rw [ih, listSwap_length]

/-- `fisherYates` preserves the length. -/
theorem fisherYates_length (l : List Bool) (rands : List Nat) :
    (fisherYates l rands).1.length = l.length :=
  fyAux_length (l.length - 1) l rands

/-- A scan step preserves the length. -/
theorem passBody_length (ms : Nat) (l : List Bool) (i : Nat) :
    (passBody ms l i).1.length = l.length := by
  unfold passBody
  dsimp only
  split
  · rfl
  · split
    · split
      · exact listSwap_length l _ _
      · rfl
    · rfl

/-- The inner balancing loop preserves the length. -/
theorem passFromI_length (ms : Nat) : ∀ (steps i : Nat) (l : List Bool)
    (ch : Bool), (passFromI ms steps i l ch).1.length = l.length := by
  intro steps
  induction steps with
  | zero => intro i l ch; rfl
  | succ s ih =>
      intro i l ch
      rcases hpb : passBody ms l i with ⟨l1, ch1⟩
      simp only [passFromI, hpb]
      rw [ih]
      have := passBody_length ms l i
      rw [hpb] at this
      exact this

/-- The balancing pass loop preserves the length. -/
theorem balanceRun_length (ms : Nat) : ∀ (fuel : Nat) (l : List Bool),
    (balanceRun ms fuel l).1.length = l.length := by
  intro fuel
  induction fuel with
  | zero => intro l; rfl
  | succ f ih =>
      intro l
      rcases hp : balancePassOnce l ms with ⟨l1, ch⟩
      have hl1 : l1.length = l.length := by
        have := passFromI_length ms (l.length - ms + 1) 0 l false
        rw [show passFromI ms (l.length - ms + 1) 0 l false
          = balancePassOnce l ms from rfl, hp] at this
        exact this
      cases ch with
      | false => simp only [balanceRun, hp, Bool.false_eq_true, if_false]; exact hl1
      | true =>
          simp only [balanceRun, hp, if_true]
          rw [ih l1, hl1]

/-- `balanceTurnTypes` preserves the length. -/
theorem balanceTurnTypes_length (types : List Bool) (ms : Nat) :
    (balanceTurnTypes types ms).length = types.length :=
  balanceRun_length ms 5 types

/-- The match count never exceeds the number of remaining turns. -/
theorem numMatchesOf_le (r : Nat) (h : 1 ≤ r) : numMatchesOf r ≤ r := by
  unfold numMatchesOf
  rw [Nat.max_le]
  omega

/-- The unshuffled assignment has one entry per remaining turn. -/
theorem initialTurnTypes_length (r : Nat) (h : 1 ≤ r) :
    (initialTurnTypes r).length = r := by
  unfold initialTurnTypes
  rw [List.length_append, List.length_replicate, List.length_replicate]
  have := numMatchesOf_le r h
  omega

/-- The initial block adds exactly `k` stimuli. -/
theorem buildInitial_length (stimuli : List Stimulus) :
    ∀ (k : Nat) (acc : List Stimulus) (rands : List Nat),
      (buildInitial stimuli k acc rands).1.length = acc.length + k := by
  intro k
  induction k with
  | zero => intro acc rands; simp [buildInitial]
  | succ n ih =>
      intro acc rands
      simp only [buildInitial]
      rw [ih]
      simp
      omega

/-- A modular pick lands in the list. -/
theorem getD_mod_mem (l : List Stimulus) (r : Nat) (d : Stimulus)
    (h : l ≠ []) : l.getD (r % l.length) d ∈ l := by
  have hlen : 0 < l.length := List.length_pos.mpr h
  have hlt : r % l.length < l.length := Nat.mod_lt _ hlen
  rw [List.getD_eq_getElem l d hlt]
  exact List.getElem_mem hlt

/-- When some stimulus escapes the exclusions, `getRandomStimulus` does
not fall back: it picks a pool element whose id is not excluded. -/
theorem getRandomStimulus_spec (stimuli exclude : List Stimulus)
    (rands : List Nat)
    (h : ∃ s ∈ stimuli, s.id ∉ exclude.map Stimulus.id) :
    (getRandomStimulus stimuli exclude rands).1 ∈ stimuli
      ∧ (getRandomStimulus stimuli exclude rands).1.id
        ∉ exclude.map Stimulus.id := by
  obtain ⟨s, hs, hsid⟩ := h
  have havail : s ∈ stimuli.filter
      (fun t => !(decide (t.id ∈ exclude.map Stimulus.id))) :=
    List.mem_filter.mpr ⟨hs, by simpa using hsid⟩
  have hne : stimuli.filter
      (fun t => !(decide (t.id ∈ exclude.map Stimulus.id))) ≠ [] := by
    intro heq
    rw [heq] at havail
    exact (List.not_mem_nil s) havail
  have hemp : (stimuli.filter
      (fun t => !(decide (t.id ∈ exclude.map Stimulus.id)))).isEmpty
      = false :=
    Bool.eq_false_iff.mpr fun hT => hne (List.isEmpty_iff.mp hT)
  have hres : (getRandomStimulus stimuli exclude rands).1
      = (stimuli.filter
          (fun t => !(decide (t.id ∈ exclude.map Stimulus.id)))).getD
          (rands.headD 0
            % (stimuli.filter
                (fun t => !(decide (t.id ∈ exclude.map Stimulus.id)))).length)
          default := by
    simp only [getRandomStimulus, hemp, Bool.false_eq_true, if_false]
  have hpick := getD_mod_mem _ (rands.headD 0) default hne
  have hmem := List.mem_filter.mp hpick
  rw [hres]
  refine ⟨hmem.1, ?_⟩
  simpa using hmem.2

/-- `fillLoop` only appends: the result is the input sequence followed by
one new stimulus per turn type. -/
theorem fillLoop_struct (stimuli : List Stimulus) (n : Nat) :
    ∀ (ts : List Bool) (seq : List Stimulus) (rands : List Nat),
      ∃ tail, fillLoop stimuli n ts seq rands = seq ++ tail
        ∧ tail.length = ts.length := by
  intro ts
  induction ts with
  | nil => intro seq rands; exact ⟨[], by simp [fillLoop]⟩
  | cons t ts ih =>
      intro seq rands
      cases t with
      | true =>
          obtain ⟨tail, he, hl⟩ :=
            ih (seq ++ [seq.getD (seq.length - n) default]) rands
          refine ⟨seq.getD (seq.length - n) default :: tail, ?_, by simp [hl]⟩
          simp only [fillLoop, if_pos rfl]
          rw [he, List.append_assoc]
          rfl
      | false =>
          obtain ⟨tail, he, hl⟩ := ih
            (seq ++ [(getRandomStimulus stimuli (fillExclusions n seq)
              rands).1])
            (getRandomStimulus stimuli (fillExclusions n seq) rands).2
          refine ⟨(getRandomStimulus stimuli (fillExclusions n seq)
              rands).1 :: tail, ?_, by simp [hl]⟩
          simp only [fillLoop, Bool.false_eq_true, if_false]
          rw [he, List.append_assoc]
          rfl

/-- Every exclusion of a non-match draw carries the n-back id (at `n = 1`
the "previous" exclusion is the same position as the n-back one). -/
theorem fillExclusions_ids (n : Nat) (seq : List Stimulus) :
    ∀ x ∈ fillExclusions n seq,
      x.id = (seq.getD (seq.length - n) default).id := by
  intro x hx
  unfold fillExclusions at hx
  by_cases hn1 : n = 1
  · subst hn1
    rw [if_pos (by simp)] at hx
    rcases List.mem_cons.mp hx with h | h
    · rw [h]
    · rcases List.mem_cons.mp h with h2 | h2
      · rw [h2]
      · exact absurd h2 (List.not_mem_nil x)
  · rw [if_neg (by simpa using hn1)] at hx
    rcases List.mem_cons.mp hx with h | h
    · rw [h]
    · exact absurd h (List.not_mem_nil x)

/-- The n-back stimulus is among the exclusions of a non-match draw. -/
theorem nBack_mem_fillExclusions (n : Nat) (seq : List Stimulus) :
    seq.getD (seq.length - n) default ∈ fillExclusions n seq := by
  unfold fillExclusions
  split
  · exact List.mem_cons_self _ _
  · exact List.mem_cons_self _ _

/-- With two distinct ids in the pool and exclusions all sharing one id,
the draw avoids every excluded id (the fallback cannot trigger). -/
theorem pick_ne_of_all_eq (stimuli ex : List Stimulus) (rands : List Nat)
    (eid : String)
    (hpool : ∃ s1 ∈ stimuli, ∃ s2 ∈ stimuli, s1.id ≠ s2.id)
    (hex : ∀ x ∈ ex, x.id = eid) :
    (getRandomStimulus stimuli ex rands).1 ∈ stimuli
      ∧ ∀ x ∈ ex, (getRandomStimulus stimuli ex rands).1.id ≠ x.id := by
  have hsome : ∃ s ∈ stimuli, s.id ∉ ex.map Stimulus.id := by
    obtain ⟨s1, hs1, s2, hs2, hne⟩ := hpool
    by_cases h1 : s1.id = eid
    · refine ⟨s2, hs2, fun hc => ?_⟩
      obtain ⟨x, hx, hxid⟩ := List.mem_map.mp hc
      exact hne (h1.trans ((hex x hx).symm.trans hxid))
    · refine ⟨s1, hs1, fun hc => ?_⟩
      obtain ⟨x, hx, hxid⟩ := List.mem_map.mp hc
      exact h1 (hxid ▸ hex x hx)
  obtain ⟨hmem, hnotin⟩ := getRandomStimulus_spec stimuli ex rands hsome
  exact ⟨hmem, fun x hx hc => hnotin (List.mem_map.mpr ⟨x, hx, hc.symm⟩)⟩

/-- The per-position match/non-match correspondence of the fill loop: for
each pre-assigned type, the generated element at the matching position
equals the n-back element exactly on match turns and differs in id on
non-match turns. -/
theorem fillLoop_types (stimuli : List Stimulus) (n : Nat) (hn : 1 ≤ n)
    (hpool : ∃ s1 ∈ stimuli, ∃ s2 ∈ stimuli, s1.id ≠ s2.id) :
    ∀ (ts : List Bool) (seq : List Stimulus) (rands : List Nat),
      n ≤ seq.length →
      ∀ i, i < ts.length →
        ((ts.getD i false = true →
            (fillLoop stimuli n ts seq rands).getD (seq.length + i) default
              = (fillLoop stimuli n ts seq rands).getD (seq.length + i - n)
                  default)
          ∧ (ts.getD i false = false →
              ((fillLoop stimuli n ts seq rands).getD (seq.length + i)
                  default).id
                ≠ ((fillLoop stimuli n ts seq rands).getD
                    (seq.length + i - n) default).id)) := by
  intro ts
  induction ts with
  | nil => intro seq rands hseq i hi; exact absurd hi (by simp)
  | cons t ts ih =>
    intro seq rands hseq i hi
    cases t with
    | true =>
      have hstep : fillLoop stimuli n (true :: ts) seq rands
          = fillLoop stimuli n ts
              (seq ++ [seq.getD (seq.length - n) default]) rands := by
        simp [fillLoop]
      cases i with
      | zero =>
        constructor
        · intro _
          rw [hstep]
          obtain ⟨tail, he, _⟩ := fillLoop_struct stimuli n ts
            (seq ++ [seq.getD (seq.length - n) default]) rands
          rw [he]
          simp only [Nat.add_zero]
          have hL : ((seq ++ [seq.getD (seq.length - n) default]) ++ tail).getD
              seq.length default = seq.getD (seq.length - n) default := by
            rw [List.getD_append (seq ++ [seq.getD (seq.length - n) default])
                tail default seq.length (by simp),
              List.getD_append_right seq [seq.getD (seq.length - n) default]
                default seq.length (le_refl _)]
            simp
          have hR : ((seq ++ [seq.getD (seq.length - n) default]) ++ tail).getD
              (seq.length - n) default = seq.getD (seq.length - n) default := by
            rw [List.getD_append (seq ++ [seq.getD (seq.length - n) default])
                tail default (seq.length - n)
                (by simp only [List.length_append, List.length_singleton]; omega),
              List.getD_append seq [seq.getD (seq.length - n) default]
                default (seq.length - n) (by omega)]
          rw [hL, hR]
        · intro hc
          simp at hc
      | succ i2 =>
        have hpos1 : seq.length + (i2 + 1)
            = (seq ++ [seq.getD (seq.length - n) default]).length + i2 := by
          simp only [List.length_append, List.length_singleton]
          omega
        have hgetd : (true :: ts).getD (i2 + 1) false = ts.getD i2 false :=
          rfl
        rw [hstep, hgetd, hpos1]
        exact ih (seq ++ [seq.getD (seq.length - n) default]) rands
          (by simp only [List.length_append, List.length_singleton]; omega)
          i2 (by simpa using hi)
    | false =>
      have hstep : fillLoop stimuli n (false :: ts) seq rands
          = fillLoop stimuli n ts
              (seq ++ [(getRandomStimulus stimuli (fillExclusions n seq)
                rands).1])
              (getRandomStimulus stimuli (fillExclusions n seq) rands).2 := by
        simp [fillLoop]
      cases i with
      | zero =>
        constructor
        · intro hc
          simp at hc
        · intro _
          rw [hstep]
          obtain ⟨tail, he, _⟩ := fillLoop_struct stimuli n ts
            (seq ++ [(getRandomStimulus stimuli (fillExclusions n seq)
              rands).1])
            (getRandomStimulus stimuli (fillExclusions n seq) rands).2
          rw [he]
          simp only [Nat.add_zero]
          have hL : ((seq ++ [(getRandomStimulus stimuli
              (fillExclusions n seq) rands).1]) ++ tail).getD
              seq.length default
              = (getRandomStimulus stimuli (fillExclusions n seq)
                  rands).1 := by
            rw [List.getD_append
                (seq ++ [(getRandomStimulus stimuli (fillExclusions n seq)
                  rands).1]) tail default seq.length (by simp),
              List.getD_append_right seq
                [(getRandomStimulus stimuli (fillExclusions n seq) rands).1]
                default seq.length (le_refl _)]
            simp
          have hR : ((seq ++ [(getRandomStimulus stimuli
              (fillExclusions n seq) rands).1]) ++ tail).getD
              (seq.length - n) default
              = seq.getD (seq.length - n) default := by
            rw [List.getD_append
                (seq ++ [(getRandomStimulus stimuli (fillExclusions n seq)
                  rands).1]) tail default (seq.length - n)
                (by simp only [List.length_append, List.length_singleton]; omega),
              List.getD_append seq
                [(getRandomStimulus stimuli (fillExclusions n seq) rands).1]
                default (seq.length - n) (by omega)]
          rw [hL, hR]
          exact (pick_ne_of_all_eq stimuli (fillExclusions n seq) rands
            (seq.getD (seq.length - n) default).id hpool
            (fillExclusions_ids n seq)).2
            (seq.getD (seq.length - n) default)
            (nBack_mem_fillExclusions n seq)
      | succ i2 =>
        have hpos1 : seq.length + (i2 + 1)
            = (seq ++ [(getRandomStimulus stimuli (fillExclusions n seq)
                rands).1]).length + i2 := by
          simp only [List.length_append, List.length_singleton]
          omega
        have hgetd : (false :: ts).getD (i2 + 1) false = ts.getD i2 false :=
          rfl
        rw [hstep, hgetd, hpos1]
        exact ih
          (seq ++ [(getRandomStimulus stimuli (fillExclusions n seq)
            rands).1])
          (getRandomStimulus stimuli (fillExclusions n seq) rands).2
          (by simp only [List.length_append, List.length_singleton]; omega)
          i2 (by simpa using hi)

/-- Two pool members with different ids force at least two entries. -/
theorem two_ids_length (l : List Stimulus)
    (h : ∃ s1 ∈ l, ∃ s2 ∈ l, s1.id ≠ s2.id) : 2 ≤ l.length := by
  obtain ⟨s1, h1, s2, h2, hne⟩ := h
  match l with
  | [] => exact absurd h1 (List.not_mem_nil s1)
  | [a] =>
      rw [List.mem_singleton] at h1 h2
      exact absurd (h1 ▸ h2 ▸ rfl) hne
  | a :: b :: t => simp

/-- C2: for `n ≥ 1`, `gameLength > n` and a pool containing two distinct
ids, the `part_003` generator produces a sequence of length exactly
`gameLength`, the balanced turn-type assignment covers the `gameLength - n`
constrained positions, and every position `i ≥ n` agrees with its
pre-assigned type: on a match turn the element equals the one at `i - n`,
on a non-match turn its id differs from the one at `i - n` (with two
distinct ids in the pool the documented fallback never fires at these
positions, so the exception of the claim is not needed; at `n = 1` the
preceding position is the `i - n` position itself). -/
theorem gameSequence_spec (stimuli : List Stimulus)
    (settings : GameSettings) (rands : List Nat)
    (hn : 1 ≤ settings.nLevel)
    (hlen : settings.nLevel < settings.gameLength)
    (hpool : ∃ s1 ∈ stimuli, ∃ s2 ∈ stimuli, s1.id ≠ s2.id) :
    (gameSequence stimuli settings rands).length = settings.gameLength
      ∧ (gameTurnTypes stimuli settings rands).length
        = settings.gameLength - settings.nLevel
      ∧ ∀ i, settings.nLevel ≤ i → i < settings.gameLength →
          (((gameTurnTypes stimuli settings rands).getD
              (i - settings.nLevel) false = true →
            (gameSequence stimuli settings rands).getD i default
              = (gameSequence stimuli settings rands).getD
                  (i - settings.nLevel) default)
          ∧ ((gameTurnTypes stimuli settings rands).getD
              (i - settings.nLevel) false = false →
            ((gameSequence stimuli settings rands).getD i default).id
              ≠ ((gameSequence stimuli settings rands).getD
                  (i - settings.nLevel) default).id)) := by
  have h2 : ¬ stimuli.length < 2 := by
    have := two_ids_length stimuli hpool
    omega
  have hrem : ¬ (settings.gameLength - settings.nLevel = 0) := by omega
  have hinit : (buildInitial stimuli settings.nLevel [] rands).1.length
      = settings.nLevel := by
    rw [buildInitial_length]
    simp
  have hbal : (balanceTurnTypes
      (fisherYates (initialTurnTypes
          (settings.gameLength - settings.nLevel))
        (buildInitial stimuli settings.nLevel [] rands).2).1 3).length
      = settings.gameLength - settings.nLevel := by
    rw [balanceTurnTypes_length, fisherYates_length,
      initialTurnTypes_length _ (by omega)]
  simp only [gameSequence, gameTurnTypes, gameSequenceCore, if_neg h2,
    if_neg hrem]
  obtain ⟨tail, he, hl⟩ := fillLoop_struct stimuli settings.nLevel
    (balanceTurnTypes
      (fisherYates (initialTurnTypes (settings.gameLength - settings.nLevel))
        (buildInitial stimuli settings.nLevel [] rands).2).1 3)
    (buildInitial stimuli settings.nLevel [] rands).1
    (fisherYates (initialTurnTypes (settings.gameLength - settings.nLevel))
      (buildInitial stimuli settings.nLevel [] rands).2).2
  refine ⟨?_, hbal, ?_⟩
  · rw [he, List.length_append, hinit, hl, hbal]
    omega
  · intro i hge hlt
    have hmain := fillLoop_types stimuli settings.nLevel hn hpool
      (balanceTurnTypes
        (fisherYates (initialTurnTypes
            (settings.gameLength - settings.nLevel))
          (buildInitial stimuli settings.nLevel [] rands).2).1 3)
      (buildInitial stimuli settings.nLevel [] rands).1
      (fisherYates (initialTurnTypes
          (settings.gameLength - settings.nLevel))
        (buildInitial stimuli settings.nLevel [] rands).2).2
      (by omega) (i - settings.nLevel) (by omega)
    have hpos : (buildInitial stimuli settings.nLevel [] rands).1.length
        + (i - settings.nLevel) = i := by omega
    rw [hpos] at hmain
    have hpos2 : i - settings.nLevel
        = (buildInitial stimuli settings.nLevel [] rands).1.length
          + (i - settings.nLevel) - settings.nLevel := by omega
    constructor
    · intro ht
      have := hmain.1 ht
      rw [hpos] at hpos2
      rw [← hpos2] at this
      exact this
    · intro ht
      have := hmain.2 ht
      rw [hpos] at hpos2
      rw [← hpos2] at this
      exact this

/-- Witness for C2 at a two-stimulus pool, `n = 1`, `gameLength = 4`. -/
theorem gameSequence_spec_witness :
    (gameSequence [⟨"a", "COLOR", "a", none⟩, ⟨"b", "COLOR", "b", none⟩]
        ⟨1, 1, "COLOR", 4, 2000⟩ []).length = 4 :=
  (gameSequence_spec [⟨"a", "COLOR", "a", none⟩, ⟨"b", "COLOR", "b", none⟩]
    ⟨1, 1, "COLOR", 4, 2000⟩ [] (by decide) (by decide)
    ⟨⟨"a", "COLOR", "a", none⟩, by decide, ⟨"b", "COLOR", "b", none⟩,
      by decide, by decide⟩).1

/-- Witness for C10: a no-match, no-response turn with a live streak of 3:
the hooks variant drops it to 0, the balanced variant keeps it at 3. -/
theorem noopStreakPolicy_witness :
    ((timerElapsed ⟨1, 1, "COLOR", 3, 2000⟩
        [⟨"a", "COLOR", "a", none⟩, ⟨"b", "COLOR", "b", none⟩,
         ⟨"a", "COLOR", "a", none⟩] 2 false
        ⟨0, 5, [], false, false, .neutral, 3, 3, 0⟩).currentStreak = 0
      ∧ (timerElapsed ⟨1, 1, "COLOR", 3, 2000⟩
        [⟨"a", "COLOR", "a", none⟩, ⟨"b", "COLOR", "b", none⟩,
         ⟨"a", "COLOR", "a", none⟩] 2 false
        ⟨0, 5, [], false, false, .neutral, 3, 3, 0⟩).score = 5
      ∧ (timerElapsed ⟨1, 1, "COLOR", 3, 2000⟩
        [⟨"a", "COLOR", "a", none⟩, ⟨"b", "COLOR", "b", none⟩,
         ⟨"a", "COLOR", "a", none⟩] 2 false
        ⟨0, 5, [], false, false, .neutral, 3, 3, 0⟩).incorrectPresses = 0)
    ∧ ((timerElapsedBalanced ⟨1, 1, "COLOR", 3, 2000⟩
        [⟨"a", "COLOR", "a", none⟩, ⟨"b", "COLOR", "b", none⟩,
         ⟨"a", "COLOR", "a", none⟩] 2 false
        ⟨0, 5, [], false, false, .neutral, 3, 3, 0⟩).currentStreak = 3
      ∧ (timerElapsedBalanced ⟨1, 1, "COLOR", 3, 2000⟩
        [⟨"a", "COLOR", "a", none⟩, ⟨"b", "COLOR", "b", none⟩,
         ⟨"a", "COLOR", "a", none⟩] 2 false
        ⟨0, 5, [], false, false, .neutral, 3, 3, 0⟩).score = 5
      ∧ (timerElapsedBalanced ⟨1, 1, "COLOR", 3, 2000⟩
        [⟨"a", "COLOR", "a", none⟩, ⟨"b", "COLOR", "b", none⟩,
         ⟨"a", "COLOR", "a", none⟩] 2 false
        ⟨0, 5, [], false, false, .neutral, 3, 3, 0⟩).incorrectPresses = 0) :=
  noopStreakPolicy ⟨1, 1, "COLOR", 3, 2000⟩
    [⟨"a", "COLOR", "a", none⟩, ⟨"b", "COLOR", "b", none⟩,
     ⟨"a", "COLOR", "a", none⟩] 2
    ⟨0, 5, [], false, false, .neutral, 3, 3, 0⟩
    rfl rfl (by decide) (by decide) (by decide)

end NBack
